import Mathlib

/-!
Verification of the ebv_frame_recording capture/playback pipeline.

Each namespace below is a shallow embedding of one component of the C++
source tree, translated definition-by-definition from the corresponding
`.cpp`/`.h` files:

* `FrameQueue`   — the bounded frame queue filled by
  `FrameCameraManager::acquisitionWorker` (src/frame_camera_manager.cpp).
* `BufferFPS`    — `RecordingBuffer::updateFPS` (recording_buffer.cpp).
* `EventLoader`  — `EventCameraLoader` lazy frame cache with eviction and
  prefetch (recording_data_loader.cpp / recording_data_loader.h).
* `DiskWriter`   — `FrameCameraManager::diskWriterWorker`.
* `EventAccum`   — `EventCameraManager::eventStreamingWorker`
  (event_camera_manager.cpp).
* `RecManager`   — `RecordingManager::configure` / `startRecording` /
  `createEventCameraConfigs` (recording_manager.cpp).
* `RecBuffer`    — `RecordingBuffer` mode state machine (recording_buffer.cpp).
* `FrameSort`    — `extract_frame_index` and the frame-file comparator
  (extract_frame_index.cpp, recording_data_loader.cpp).

Machine integers are modelled with `Nat`/`Int` (frame counters never go
negative in the source; `size_t` subtraction that cannot underflow is
truncated subtraction), `double` arithmetic with `ℚ` (the verified claims
are about the update laws, not rounding), images/frames with opaque
payload values, and thread interleavings with explicit sequences of
atomic operations on the shared state.
-/

namespace FrameQueue

/-- `MAX_QUEUE_SIZE` from frame_camera_manager.h. -/
def MAX_QUEUE_SIZE : Nat := 1000

/-- One producer push into the writer queue, from
`FrameCameraManager::acquisitionWorker`: if the queue is below capacity the
record is enqueued, otherwise the oldest record is popped, a warning is
logged (the returned `Bool`) and the new record is enqueued.  The head of
the list is the oldest record. -/
def pushRecord {α : Type} (q : List α) (r : α) : List α × Bool :=
  if q.length < MAX_QUEUE_SIZE then (q ++ [r], false)
  else (q.drop 1 ++ [r], true)

/-- Folding a sequence of pushes over the queue. -/
def pushAll {α : Type} (q : List α) : List α → List α
  | [] => q
  | r :: rs => pushAll (pushRecord q r).1 rs

lemma pushAll_append {α : Type} (q : List α) (rs ss : List α) :
    pushAll q (rs ++ ss) = pushAll (pushAll q rs) ss := by
  induction rs generalizing q with
  | nil => rfl
  | cons r rs ih => simp [pushAll, ih]

/-- Closed form of a push sequence: starting from a queue within capacity,
the final queue is the suffix of all arrivals that fits under the bound. -/
lemma pushAll_eq {α : Type} (rs : List α) (q : List α)
    (hq : q.length ≤ MAX_QUEUE_SIZE) :
    pushAll q rs = (q ++ rs).drop (q.length + rs.length - MAX_QUEUE_SIZE) := by
  induction rs generalizing q with
  | nil =>
      simp [pushAll, Nat.sub_eq_zero_of_le hq]
  | cons r rs ih =>
      show pushAll (pushRecord q r).1 rs = _
      by_cases hlt : q.length < MAX_QUEUE_SIZE
      · rw [show (pushRecord q r).1 = q ++ [r] from by simp [pushRecord, hlt]]
        rw [ih (q ++ [r]) (by rw [List.length_append]; simp; omega)]
        rw [List.append_assoc, List.singleton_append]
        have e : (q ++ [r]).length + rs.length - MAX_QUEUE_SIZE
            = q.length + (r :: rs).length - MAX_QUEUE_SIZE := by
          simp only [List.length_append, List.length_cons, List.length_nil]
          omega
        rw [e]
      · have hq' : q.length = MAX_QUEUE_SIZE := le_antisymm hq (not_lt.mp hlt)
        have hqpos : 0 < q.length := by rw [hq']; norm_num [MAX_QUEUE_SIZE]
        rw [show (pushRecord q r).1 = q.drop 1 ++ [r] from by simp [pushRecord, hlt]]
        have hL : (q.drop 1 ++ [r]).length = MAX_QUEUE_SIZE := by
          rw [List.length_append, List.length_drop]; simp; omega
        rw [ih (q.drop 1 ++ [r]) (le_of_eq hL), hL]
        have e1 : MAX_QUEUE_SIZE + rs.length - MAX_QUEUE_SIZE = rs.length := by omega
        have e2 : q.length + (r :: rs).length - MAX_QUEUE_SIZE = rs.length + 1 := by
          rw [List.length_cons]; omega
        rw [e1, e2]
        have hdrop1 : (q ++ (r :: rs)).drop 1 = q.drop 1 ++ (r :: rs) :=
          List.drop_append_of_le_length (by omega)
        calc (q.drop 1 ++ [r] ++ rs).drop rs.length
            = (q.drop 1 ++ (r :: rs)).drop rs.length := by
              rw [List.append_assoc, List.singleton_append]
          _ = ((q ++ (r :: rs)).drop 1).drop rs.length := by rw [hdrop1]
          _ = (q ++ (r :: rs)).drop (1 + rs.length) := List.drop_drop rs.length 1 _
          _ = (q ++ (r :: rs)).drop (rs.length + 1) := by rw [Nat.add_comm]

/-- C1.  The bounded capture queue of `FrameCameraManager::acquisitionWorker`
with `MAX_QUEUE_SIZE = 1000`: every push is a total (non-blocking) state
update; over any arrival sequence exceeding capacity, the queue after the
sequence holds exactly the `MAX_QUEUE_SIZE` most recent records in arrival
order, the final size is exactly the capacity, the size never exceeds the
capacity at any intermediate point, and a push into a full queue discards
the oldest record, enqueues the new one and logs a warning, while a push
into a non-full queue merely enqueues without warning. -/
theorem frameQueue_drop_oldest_spec {α : Type} (rs : List α)
    (h : MAX_QUEUE_SIZE < rs.length) :
    pushAll [] rs = rs.drop (rs.length - MAX_QUEUE_SIZE)
    ∧ (pushAll [] rs).length = MAX_QUEUE_SIZE
    ∧ (∀ n : Nat, (pushAll [] (rs.take n)).length ≤ MAX_QUEUE_SIZE)
    ∧ (∀ (q : List α) (r : α), q.length = MAX_QUEUE_SIZE →
        pushRecord q r = (q.drop 1 ++ [r], true))
    ∧ (∀ (q : List α) (r : α), q.length < MAX_QUEUE_SIZE →
        pushRecord q r = (q ++ [r], false)) := by
  have hmain : pushAll ([] : List α) rs = rs.drop (rs.length - MAX_QUEUE_SIZE) := by
    have := pushAll_eq rs ([] : List α) (by simp)
    simpa using this
  refine ⟨hmain, ?_, ?_, ?_, ?_⟩
  · rw [hmain, List.length_drop]
    omega
  · intro n
    have := pushAll_eq (rs.take n) ([] : List α) (by simp)
    simp only [List.nil_append, List.length_nil, Nat.zero_add] at this
    rw [this, List.length_drop, List.length_take]
    omega
  · intro q r hq
    simp [pushRecord, hq]
  · intro q r hq
    simp [pushRecord, hq]

/-- Witness for C1 at a concrete arrival sequence of 1001 records into the
queue of capacity 1000, and a concrete push into a full queue. -/
theorem frameQueue_drop_oldest_spec_witness :
    MAX_QUEUE_SIZE < (List.range 1001).length
    ∧ pushAll [] (List.range 1001)
        = (List.range 1001).drop ((List.range 1001).length - MAX_QUEUE_SIZE)
    ∧ (List.range 1000).length = MAX_QUEUE_SIZE
    ∧ pushRecord (List.range 1000) 5
        = ((List.range 1000).drop 1 ++ [5], true) := by
  have h : MAX_QUEUE_SIZE < (List.range 1001).length := by
    norm_num [MAX_QUEUE_SIZE]
  exact ⟨h, (frameQueue_drop_oldest_spec (List.range 1001) h).1,
    by norm_num [MAX_QUEUE_SIZE],
    (frameQueue_drop_oldest_spec (List.range 1001) h).2.2.2.1
      (List.range 1000) 5 (by norm_num [MAX_QUEUE_SIZE])⟩

end FrameQueue

namespace BufferFPS

/-- The FPS-tracking fields of `RecordingBuffer` (recording_buffer.h):
`m_lastFrameTime` (modelled in integer milliseconds, matching the
`duration_cast<milliseconds>` in the source), `m_lastFrameCount` and
`m_currentFPS`. -/
structure FPSState where
  lastFrameTimeMs : Nat
  lastFrameCount : Nat
  currentFPS : ℚ
  deriving DecidableEq

/-- `RecordingBuffer::updateFPS` (recording_buffer.cpp): if more than
1000 ms elapsed since the last update, store
`frameDiff * 1000 / timeDiff` as the new FPS and reset the reference
time and count; otherwise leave the state unchanged.  The source's inner
`timeDiff.count() > 0` guard is implied by `1000 < timeDiff`.
`frameDiff` is a `size_t` difference of the monotone frame counter,
modelled by truncated `Nat` subtraction. -/
def updateFPS (s : FPSState) (nowMs : Nat) (currentFrameIndex : Nat) : FPSState :=
  let timeDiff := nowMs - s.lastFrameTimeMs
  if 1000 < timeDiff then
    let frameDiff := currentFrameIndex - s.lastFrameCount
    { lastFrameTimeMs := nowMs
      lastFrameCount := currentFrameIndex
      currentFPS := ((frameDiff : ℚ) * 1000) / (timeDiff : ℚ) }
  else s

/-- Counterexample to C2 as stated: from a state with previous FPS 100,
an update after 2000 ms with 2 new frames stores the instantaneous value
1 fps, not the exponentially smoothed `0.8·100 + 0.2·1 = 80.2` the claim
demands. -/
theorem updateFPS_smoothing_counterexample :
    (updateFPS ⟨0, 0, 100⟩ 2000 2).currentFPS = 1
    ∧ ((0.8 : ℚ) * 100 + (1 - 0.8) * (((2 : ℚ) * 1000) / 2000)) = 401 / 5
    ∧ (1 : ℚ) ≠ 401 / 5 := by
  refine ⟨?_, by norm_num, by norm_num⟩
  norm_num [updateFPS]

/-- C2 (amended).  `RecordingBuffer::updateFPS` updates the published
FPS only when strictly more than 1000 ms have elapsed since the last
update, and then stores the instantaneous throughput
`Δframes · 1000 / Δt_ms` directly, with no smoothing of the previous
value; when the threshold is not exceeded the state is unchanged. -/
theorem updateFPS_threshold_instantaneous (s : FPSState) (nowMs idx : Nat)
    (h : 1000 < nowMs - s.lastFrameTimeMs) :
    updateFPS s nowMs idx =
      { lastFrameTimeMs := nowMs
        lastFrameCount := idx
        currentFPS := ((idx - s.lastFrameCount : Nat) : ℚ) * 1000
          / ((nowMs - s.lastFrameTimeMs : Nat) : ℚ) }
    ∧ (∀ t i : Nat, ¬ 1000 < t - s.lastFrameTimeMs → updateFPS s t i = s) := by
  constructor
  · simp only [updateFPS, if_pos h]
  · intro t i ht
    simp only [updateFPS, if_neg ht]

/-- Witness for C2's amended theorem at a concrete state: an update at
2000 ms with 2 frames, and a below-threshold call at 500 ms. -/
theorem updateFPS_threshold_instantaneous_witness :
    1000 < 2000 - (FPSState.mk 0 0 100).lastFrameTimeMs
    ∧ updateFPS ⟨0, 0, 100⟩ 2000 2 =
        { lastFrameTimeMs := 2000
          lastFrameCount := 2
          currentFPS := ((2 - (FPSState.mk 0 0 100).lastFrameCount : Nat) : ℚ) * 1000
            / ((2000 - (FPSState.mk 0 0 100).lastFrameTimeMs : Nat) : ℚ) }
    ∧ updateFPS ⟨0, 0, 100⟩ 500 2 = ⟨0, 0, 100⟩ := by
  have h : 1000 < 2000 - (FPSState.mk 0 0 100).lastFrameTimeMs := by norm_num
  exact ⟨h, (updateFPS_threshold_instantaneous ⟨0, 0, 100⟩ 2000 2 h).1,
    (updateFPS_threshold_instantaneous ⟨0, 0, 100⟩ 2000 2 h).2 500 2 (by norm_num)⟩

end BufferFPS

namespace EventLoader

/-- `MAX_CACHE_SIZE` from recording_data_loader.h. -/
def MAX_CACHE_SIZE : Nat := 10000

/-- `PREFETCH_AHEAD_FRAMES = MAX_CACHE_SIZE / 2` from recording_data_loader.h. -/
def PREFETCH_AHEAD_FRAMES : Nat := MAX_CACHE_SIZE / 2

/-- A generated `QImage`: either a real rasterized frame (opaque payload)
or the dark-gray error frame produced by the `catch` branch of
`EventCameraLoader::generateFrameFromTimeRange`. -/
inductive Frame where
  | image (data : Nat)
  | errorFrame
  deriving DecidableEq

/-- `EventCameraLoader::generateFrameFromTimeRange`: the underlying
Metavision decode either succeeds (modelled by the oracle
`gen : Nat → Option Nat` giving the payload for a frame index) or throws;
a thrown exception is caught and logged (the returned `Bool`) and the
dark-gray error frame is returned instead. -/
def generateFrameFromTimeRange (gen : Nat → Option Nat) (i : Nat) : Frame × Bool :=
  match gen i with
  | some d => (Frame.image d, false)
  | none => (Frame.errorFrame, true)

/-- The `m_frameCache` unordered map, as an association list with
pairwise-distinct keys (frame indices). -/
abbrev Cache := List (Nat × Frame)

/-- `m_frameCache.find(frameIndex)`. -/
def lookupCache : Cache → Nat → Option Frame
  | [], _ => none
  | (k, v) :: rest, i => if k = i then some v else lookupCache rest i

/-- The scan in `EventCameraLoader::getFrame` that finds the entry with the
smallest frame index (`if (it->first < oldest->first) oldest = it`). -/
def minKeyEntry : Nat × Frame → Cache → Nat × Frame
  | p, [] => p
  | p, q :: rest => if q.1 < p.1 then minKeyEntry q rest else minKeyEntry p rest

/-- `m_frameCache.erase(it)`: remove the first entry with the given key. -/
def eraseKey : Cache → Nat → Cache
  | [], _ => []
  | p :: rest, k => if p.1 = k then rest else p :: eraseKey rest k

/-- The eviction in `EventCameraLoader::getFrame`: erase the entry with
the smallest frame index. -/
def evictOldest : Cache → Cache
  | [] => []
  | p :: rest => eraseKey (p :: rest) (minKeyEntry p rest).1

/-- The loader state visible to the cache claims: the frame cache, the
current playback position `m_currentFrameIndex`, and an instrumentation
counter of how many times frame generation ran (the spec's
"generation-call counter"). -/
structure LoaderState where
  cache : Cache
  currentFrameIndex : Nat
  genCalls : Nat
  deriving DecidableEq

/-- `EventCameraLoader::getFrame`: return the cached frame when present;
otherwise generate the frame, insert it into the cache, and if that takes
the cache over `MAX_CACHE_SIZE`, erase the entry with the smallest frame
index. -/
def getFrame (gen : Nat → Option Nat) (st : LoaderState) (i : Nat) :
    LoaderState × Frame :=
  match lookupCache st.cache i with
  | some f => (st, f)
  | none =>
      let fr := (generateFrameFromTimeRange gen i).1
      let c1 := st.cache ++ [(i, fr)]
      let c2 := if MAX_CACHE_SIZE < c1.length then evictOldest c1 else c1
      ({ st with cache := c2, genCalls := st.genCalls + 1 }, fr)

/-- One iteration of the prefetch loop body in
`EventCameraLoader::prefetchThreadMain`: skip an already-cached index,
otherwise generate the frame and insert it only while the cache is below
`MAX_CACHE_SIZE`. -/
def prefetchStep (gen : Nat → Option Nat) (st : LoaderState) (i : Nat) :
    LoaderState :=
  if (lookupCache st.cache i).isSome then st
  else
    let fr := (generateFrameFromTimeRange gen i).1
    if st.cache.length < MAX_CACHE_SIZE then
      { st with cache := st.cache ++ [(i, fr)], genCalls := st.genCalls + 1 }
    else { st with genCalls := st.genCalls + 1 }

/-- The cache pruning done by `prefetchThreadMain` after a restart
request: erase entries more than `PREFETCH_AHEAD_FRAMES` behind or more
than `2 * PREFETCH_AHEAD_FRAMES` ahead of the current position. -/
def pruneFar (st : LoaderState) : LoaderState :=
  { st with cache := st.cache.filter (fun p =>
      !(decide (p.1 < st.currentFrameIndex
          ∧ PREFETCH_AHEAD_FRAMES < st.currentFrameIndex - p.1)
        || decide (st.currentFrameIndex < p.1
          ∧ PREFETCH_AHEAD_FRAMES * 2 < p.1 - st.currentFrameIndex))) }

/-- The cache-relevant operations of the loader API: a playback
`getFrame`, one prefetch-loop insertion, the restart pruning pass, and
`setCurrentFrameIndex`. -/
inductive LoaderOp where
  | get (i : Nat)
  | prefetch (i : Nat)
  | restartPrune
  | setCurrent (i : Nat)

def applyOp (gen : Nat → Option Nat) (st : LoaderState) : LoaderOp → LoaderState
  | .get i => (getFrame gen st i).1
  | .prefetch i => prefetchStep gen st i
  | .restartPrune => pruneFar st
  | .setCurrent i => { st with currentFrameIndex := i }

def runOps (gen : Nat → Option Nat) (st : LoaderState) : List LoaderOp → LoaderState
  | [] => st
  | op :: ops => runOps gen (applyOp gen st op) ops

/-- A freshly constructed `EventCameraLoader`: empty cache, position 0. -/
def initState : LoaderState := ⟨[], 0, 0⟩

lemma lookupCache_append (c d : Cache) (k : Nat) :
    lookupCache (c ++ d) k =
      match lookupCache c k with
      | some v => some v
      | none => lookupCache d k := by
  induction c with
  | nil => rfl
  | cons p rest ih =>
      by_cases h : p.1 = k
      · simp [lookupCache, h]
      · simpa [lookupCache, h] using ih

lemma lookupCache_eq_none (c : Cache) (k : Nat) (h : ∀ q ∈ c, q.1 ≠ k) :
    lookupCache c k = none := by
  induction c with
  | nil => rfl
  | cons p rest ih =>
      have hp : p.1 ≠ k := h p (by simp)
      simp only [lookupCache, hp, if_neg, not_false_iff]
      exact ih (fun q hq => h q (by simp [hq]))

lemma minKeyEntry_mem (p : Nat × Frame) (l : Cache) :
    minKeyEntry p l ∈ p :: l := by
  induction l generalizing p with
  | nil => simp [minKeyEntry]
  | cons q rest ih =>
      by_cases h : q.1 < p.1
      · have := ih q
        simp only [minKeyEntry, h, if_pos]
        rcases List.mem_cons.mp this with h1 | h1
        · simp [h1]
        · simp [h1]
      · have := ih p
        simp only [minKeyEntry, h, if_neg, not_false_iff]
        rcases List.mem_cons.mp this with h1 | h1
        · simp [h1]
        · simp [h1]

lemma minKeyEntry_le (p : Nat × Frame) (l : Cache) :
    (minKeyEntry p l).1 ≤ p.1 ∧ ∀ q ∈ l, (minKeyEntry p l).1 ≤ q.1 := by
  induction l generalizing p with
  | nil => simp [minKeyEntry]
  | cons q rest ih =>
      by_cases h : q.1 < p.1
      · have ⟨h1, h2⟩ := ih q
        simp only [minKeyEntry, h, if_pos]
        exact ⟨le_trans h1 (le_of_lt h), by
          intro x hx
          rcases List.mem_cons.mp hx with rfl | hx
          · exact h1
          · exact h2 x hx⟩
      · have ⟨h1, h2⟩ := ih p
        simp only [minKeyEntry, h, if_neg, not_false_iff]
        exact ⟨h1, by
          intro x hx
          rcases List.mem_cons.mp hx with rfl | hx
          · exact le_trans h1 (not_lt.mp h)
          · exact h2 x hx⟩

lemma minKeyEntry_eq_self (p : Nat × Frame) (l : Cache)
    (h : ∀ q ∈ l, ¬ q.1 < p.1) : minKeyEntry p l = p := by
  induction l with
  | nil => rfl
  | cons q rest ih =>
      have hq : ¬ q.1 < p.1 := h q (by simp)
      simp only [minKeyEntry, hq, if_neg, not_false_iff]
      exact ih (fun x hx => h x (by simp [hx]))

lemma eraseKey_length (c : Cache) (k : Nat) (h : ∃ v, (k, v) ∈ c) :
    (eraseKey c k).length + 1 = c.length := by
  induction c with
  | nil => rcases h with ⟨v, hv⟩; simp at hv
  | cons p rest ih =>
      by_cases hp : p.1 = k
      · simp [eraseKey, hp]
      · rcases h with ⟨v, hv⟩
        rcases List.mem_cons.mp hv with h1 | h1
        · exact absurd (congrArg Prod.fst h1.symm) hp
        · simp only [eraseKey, hp, if_neg, not_false_iff, List.length_cons]
          rw [← ih ⟨v, h1⟩]

lemma evictOldest_length (c : Cache) (h : c ≠ []) :
    (evictOldest c).length + 1 = c.length := by
  match c with
  | [] => exact absurd rfl h
  | p :: rest =>
      exact eraseKey_length (p :: rest) (minKeyEntry p rest).1
        ⟨(minKeyEntry p rest).2, by
          rw [Prod.mk.eta]; exact minKeyEntry_mem p rest⟩

lemma getFrame_cache_bound (gen : Nat → Option Nat) (st : LoaderState) (i : Nat)
    (h : st.cache.length ≤ MAX_CACHE_SIZE) :
    (getFrame gen st i).1.cache.length ≤ MAX_CACHE_SIZE := by
  unfold getFrame
  cases hl : lookupCache st.cache i with
  | some f => simpa using h
  | none =>
      simp only
      by_cases hfull : MAX_CACHE_SIZE <
          (st.cache ++ [(i, (generateFrameFromTimeRange gen i).1)]).length
      · rw [if_pos hfull]
        have hne : st.cache ++ [(i, (generateFrameFromTimeRange gen i).1)] ≠ [] := by
          simp
        have := evictOldest_length _ hne
        simp only [List.length_append, List.length_cons, List.length_nil] at this hfull
        omega
      · rw [if_neg hfull]
        simp only [List.length_append, List.length_cons, List.length_nil] at hfull ⊢
        omega

lemma prefetchStep_cache_bound (gen : Nat → Option Nat) (st : LoaderState) (i : Nat)
    (h : st.cache.length ≤ MAX_CACHE_SIZE) :
    (prefetchStep gen st i).cache.length ≤ MAX_CACHE_SIZE := by
  unfold prefetchStep
  by_cases hs : (lookupCache st.cache i).isSome
  · simpa [hs] using h
  · simp only [hs, Bool.false_eq_true, if_neg, not_false_iff]
    by_cases hroom : st.cache.length < MAX_CACHE_SIZE
    · simp only [hroom, if_pos, List.length_append, List.length_cons, List.length_nil]
      omega
    · simpa [hroom] using h

lemma applyOp_cache_bound (gen : Nat → Option Nat) (st : LoaderState) (op : LoaderOp)
    (h : st.cache.length ≤ MAX_CACHE_SIZE) :
    (applyOp gen st op).cache.length ≤ MAX_CACHE_SIZE := by
  cases op with
  | get i => exact getFrame_cache_bound gen st i h
  | prefetch i => exact prefetchStep_cache_bound gen st i h
  | restartPrune =>
      exact le_trans (List.length_filter_le _ st.cache) h
  | setCurrent i => exact h

/-- C5.  Cache cardinality invariant of `EventCameraLoader`
(recording_data_loader.cpp) with `MAX_CACHE_SIZE = 10000`: starting from
a freshly constructed loader, after any sequence of `getFrame`, prefetch
insertions, prefetch restart pruning and `setCurrentFrameIndex`
operations, the frame cache holds at most `MAX_CACHE_SIZE` entries
(`getFrame` erases one entry whenever its insertion takes the cache over
capacity, and the prefetch worker inserts only while below capacity). -/
theorem eventLoader_cache_size_bounded (gen : Nat → Option Nat)
    (ops : List LoaderOp) :
    (runOps gen initState ops).cache.length ≤ MAX_CACHE_SIZE := by
  suffices h : ∀ st : LoaderState, st.cache.length ≤ MAX_CACHE_SIZE →
      (runOps gen st ops).cache.length ≤ MAX_CACHE_SIZE by
    exact h initState (by norm_num [initState, MAX_CACHE_SIZE])
  induction ops with
  | nil => intro st h; exact h
  | cons op ops ih =>
      intro st h
      exact ih (applyOp gen st op) (applyOp_cache_bound gen st op h)

/-- A cache holding frames for the `n` consecutive indices starting at
`a`, all with the same payload: used to exhibit concrete full-cache
states. -/
def rangeCache (a n : Nat) (f : Frame) : Cache :=
  (List.range' a n).map (fun j => (j, f))

lemma rangeCache_succ (a n : Nat) (f : Frame) :
    rangeCache a (n + 1) f = (a, f) :: rangeCache (a + 1) n f := by
  unfold rangeCache
  rw [List.range'_succ]
  rfl

lemma rangeCache_length (a n : Nat) (f : Frame) :
    (rangeCache a n f).length = n := by
  simp [rangeCache]

lemma lookupCache_rangeCache (n : Nat) (a k : Nat) (f : Frame) :
    lookupCache (rangeCache a n f) k =
      if a ≤ k ∧ k < a + n then some f else none := by
  induction n generalizing a with
  | zero =>
      simp only [rangeCache, List.range', List.map_nil, lookupCache]
      rw [if_neg]; omega
  | succ n ih =>
      rw [rangeCache_succ]
      by_cases h : a = k
      · simp only [lookupCache, h, if_pos]
        rw [if_pos]; omega
      · simp only [lookupCache, h, if_neg, not_false_iff]
        rw [ih (a + 1)]
        by_cases h2 : a + 1 ≤ k ∧ k < a + 1 + n
        · rw [if_pos h2, if_pos]; omega
        · rw [if_neg h2, if_neg]; omega

lemma rangeCache_keys_pos (a n : Nat) (f : Frame) (q : Nat × Frame)
    (hq : q ∈ rangeCache a n f) : a ≤ q.1 := by
  unfold rangeCache at hq
  rcases List.mem_map.mp hq with ⟨j, hj, rfl⟩
  exact (List.mem_range'_1.mp hj).1

/-- The concrete full cache used in the C3 counterexample: frames for the
indices `0 … 9999`. -/
def fullCache : Cache := rangeCache 0 MAX_CACHE_SIZE (Frame.image 0)

lemma fullCache_head :
    fullCache = (0, Frame.image 0) :: rangeCache 1 9999 (Frame.image 0) := by
  have h : MAX_CACHE_SIZE = 9999 + 1 := by norm_num [MAX_CACHE_SIZE]
  rw [fullCache, h, rangeCache_succ]

lemma fullCache_lookup_miss : lookupCache fullCache MAX_CACHE_SIZE = none := by
  rw [fullCache, lookupCache_rangeCache, if_neg]
  omega

/-- Resulting loader state of the C3 counterexample run: the cache is full
with indices `0 … 9999`, the playback position is `0`, and
`getFrame 10000` is called. -/
def evictedState : LoaderState :=
  (getFrame (fun _ => some 0) ⟨fullCache, 0, 0⟩ MAX_CACHE_SIZE).1

lemma evictedState_cache :
    evictedState.cache
      = rangeCache 1 9999 (Frame.image 0) ++ [(MAX_CACHE_SIZE, Frame.image 0)] := by
  unfold evictedState
  rw [getFrame]
  simp only [fullCache_lookup_miss]
  have hgen : (generateFrameFromTimeRange (fun _ => some 0) MAX_CACHE_SIZE).1
      = Frame.image 0 := rfl
  simp only [hgen]
  have hlen : (fullCache ++ [(MAX_CACHE_SIZE, Frame.image 0)]).length
      = MAX_CACHE_SIZE + 1 := by
    simp [fullCache, rangeCache_length]
  rw [if_pos (by rw [hlen]; omega)]
  rw [fullCache_head]
  show evictOldest ((0, Frame.image 0)
    :: (rangeCache 1 9999 (Frame.image 0) ++ [(MAX_CACHE_SIZE, Frame.image 0)])) = _
  rw [evictOldest]
  have hmin : minKeyEntry (0, Frame.image 0)
      (rangeCache 1 9999 (Frame.image 0) ++ [(MAX_CACHE_SIZE, Frame.image 0)])
      = (0, Frame.image 0) :=
    minKeyEntry_eq_self _ _ (fun q _ => by omega)
  rw [hmin, eraseKey, if_pos rfl]

/-- Counterexample to C3 as stated: with the cache full of indices
`0 … 9999` and the current playback position at `0`, `getFrame 10000`
evicts the entry with index `0` — the entry *closest* to the current
position (distance 0) — while the entry with index `9999` (distance
9999) survives.  Eviction therefore does not pick an entry farthest from
the current playback position. -/
theorem eventLoader_eviction_not_by_distance :
    (⟨fullCache, 0, 0⟩ : LoaderState).currentFrameIndex = 0
    ∧ lookupCache fullCache 0 = some (Frame.image 0)
    ∧ lookupCache evictedState.cache 0 = none
    ∧ lookupCache evictedState.cache 9999 = some (Frame.image 0)
    ∧ Nat.dist 0 0 < Nat.dist 9999 0 := by
  refine ⟨rfl, ?_, ?_, ?_, by simp [Nat.dist]⟩
  · rw [fullCache, lookupCache_rangeCache, if_pos]
    norm_num [MAX_CACHE_SIZE]
  · rw [evictedState_cache, lookupCache_append, lookupCache_rangeCache]
    rw [if_neg (by omega)]
    simp only [lookupCache]
    rw [if_neg (by norm_num [MAX_CACHE_SIZE])]
  · rw [evictedState_cache, lookupCache_append, lookupCache_rangeCache]
    rw [if_pos (by omega)]

/-- C3 (amended).  When `EventCameraLoader::getFrame` misses on a full
cache, the entry it evicts is the one with the *smallest* frame index in
the cache after insertion (lowest-index eviction); the current playback
position plays no role in the choice — `getFrame` produces the same
cache for every value of `m_currentFrameIndex`. -/
theorem eventLoader_evicts_lowest_index (gen : Nat → Option Nat)
    (st : LoaderState) (i : Nat)
    (hmiss : lookupCache st.cache i = none)
    (hfull : MAX_CACHE_SIZE ≤ st.cache.length) :
    (∃ p : Nat × Frame,
        p ∈ st.cache ++ [(i, (generateFrameFromTimeRange gen i).1)]
        ∧ (∀ q ∈ st.cache ++ [(i, (generateFrameFromTimeRange gen i).1)],
            p.1 ≤ q.1)
        ∧ (getFrame gen st i).1.cache
            = eraseKey (st.cache ++ [(i, (generateFrameFromTimeRange gen i).1)]) p.1)
    ∧ (∀ j : Nat, (getFrame gen ⟨st.cache, j, st.genCalls⟩ i).1.cache
          = (getFrame gen st i).1.cache) := by
  constructor
  · rw [getFrame]
    simp only [hmiss]
    have hlen : MAX_CACHE_SIZE <
        (st.cache ++ [(i, (generateFrameFromTimeRange gen i).1)]).length := by
      simp only [List.length_append, List.length_cons, List.length_nil]
      omega
    rw [if_pos hlen]
    match hc : st.cache ++ [(i, (generateFrameFromTimeRange gen i).1)] with
    | [] => simp at hc
    | p :: rest =>
        refine ⟨minKeyEntry p rest, minKeyEntry_mem p rest, ?_, ?_⟩
        · intro q hq
          rcases List.mem_cons.mp hq with h1 | h1
          · rw [h1]; exact (minKeyEntry_le p rest).1
          · exact (minKeyEntry_le p rest).2 q h1
        · rw [evictOldest]
  · intro j
    rw [getFrame, getFrame]
    simp only [hmiss]

/-- Witness for C3's amended theorem at the concrete full cache of
indices `0 … 9999`. -/
theorem eventLoader_evicts_lowest_index_witness :
    lookupCache fullCache MAX_CACHE_SIZE = none
    ∧ MAX_CACHE_SIZE ≤ fullCache.length
    ∧ ((∃ p : Nat × Frame,
        p ∈ fullCache ++ [(MAX_CACHE_SIZE,
            (generateFrameFromTimeRange (fun _ => some 0) MAX_CACHE_SIZE).1)]
        ∧ (∀ q ∈ fullCache ++ [(MAX_CACHE_SIZE,
            (generateFrameFromTimeRange (fun _ => some 0) MAX_CACHE_SIZE).1)],
            p.1 ≤ q.1)
        ∧ (getFrame (fun _ => some 0) ⟨fullCache, 0, 0⟩ MAX_CACHE_SIZE).1.cache
            = eraseKey (fullCache ++ [(MAX_CACHE_SIZE,
                (generateFrameFromTimeRange (fun _ => some 0) MAX_CACHE_SIZE).1)])
              p.1)
      ∧ (∀ j : Nat,
          (getFrame (fun _ => some 0)
            ⟨(⟨fullCache, 0, 0⟩ : LoaderState).cache, j,
              (⟨fullCache, 0, 0⟩ : LoaderState).genCalls⟩ MAX_CACHE_SIZE).1.cache
          = (getFrame (fun _ => some 0) ⟨fullCache, 0, 0⟩ MAX_CACHE_SIZE).1.cache)) := by
  have hmiss : lookupCache fullCache MAX_CACHE_SIZE = none := fullCache_lookup_miss
  have hfull : MAX_CACHE_SIZE ≤ fullCache.length := by
    rw [fullCache, rangeCache_length]
  exact ⟨hmiss, hfull,
    eventLoader_evicts_lowest_index (fun _ => some 0) ⟨fullCache, 0, 0⟩
      MAX_CACHE_SIZE hmiss hfull⟩

/-- Counterexample to C4 as stated: with a failing generator, the first
`getFrame 5` on a fresh loader stores the dark-gray *error frame* in the
cache under index 5 (the index is not left ungenerated), and a second
`getFrame 5` returns that cached error frame without invoking generation
again (the generation-call counter stays at 1). -/
theorem eventLoader_failure_not_skipped :
    lookupCache ((getFrame (fun _ => none) ⟨[], 0, 0⟩ 5).1).cache 5
      = some Frame.errorFrame
    ∧ ((getFrame (fun _ => none) ⟨[], 0, 0⟩ 5).1).genCalls = 1
    ∧ (getFrame (fun _ => none)
        ((getFrame (fun _ => none) ⟨[], 0, 0⟩ 5).1) 5).1.genCalls = 1
    ∧ (getFrame (fun _ => none)
        ((getFrame (fun _ => none) ⟨[], 0, 0⟩ 5).1) 5).2 = Frame.errorFrame := by
  refine ⟨?_, ?_, ?_, ?_⟩ <;> decide

lemma getFrame_miss_eq (gen : Nat → Option Nat) (st : LoaderState) (i : Nat)
    (hmiss : lookupCache st.cache i = none) :
    getFrame gen st i
      = ({ st with
            cache :=
              if MAX_CACHE_SIZE <
                  (st.cache ++ [(i, (generateFrameFromTimeRange gen i).1)]).length
              then evictOldest
                (st.cache ++ [(i, (generateFrameFromTimeRange gen i).1)])
              else st.cache ++ [(i, (generateFrameFromTimeRange gen i).1)]
            genCalls := st.genCalls + 1 },
          (generateFrameFromTimeRange gen i).1) := by
  rw [getFrame]
  simp only [hmiss]

lemma getFrame_hit_eq (gen : Nat → Option Nat) (st : LoaderState) (i : Nat)
    (f : Frame) (hhit : lookupCache st.cache i = some f) :
    getFrame gen st i = (st, f) := by
  rw [getFrame]
  simp only [hhit]

lemma lookupCache_none_forall (c : Cache) (k : Nat)
    (h : lookupCache c k = none) : ∀ q ∈ c, q.1 ≠ k := by
  induction c with
  | nil => intro q hq; simp at hq
  | cons p rest ih =>
      intro q hq
      by_cases hp : p.1 = k
      · simp only [lookupCache, hp, if_pos] at h
        simp at h
      · simp only [lookupCache, hp, if_neg, not_false_iff] at h
        rcases List.mem_cons.mp hq with h1 | h1
        · rw [h1]; exact hp
        · exact ih h q h1

lemma eraseKey_append_of_forall (c d : Cache) (k : Nat)
    (h : ∀ q ∈ c, q.1 ≠ k) : eraseKey (c ++ d) k = c ++ eraseKey d k := by
  induction c with
  | nil => rfl
  | cons p rest ih =>
      have hp : p.1 ≠ k := h p (by simp)
      simp only [List.cons_append, eraseKey, hp, if_neg, not_false_iff,
        List.append_eq]
      rw [ih (fun q hq => h q (by simp [hq]))]

/-- Appending an entry whose key is strictly below every cached key to a
cache and evicting immediately removes exactly that new entry. -/
lemma evictOldest_append_min (c : Cache) (i : Nat) (f : Frame)
    (hne : ∀ q ∈ c, q.1 ≠ i) (hmin : ∀ q ∈ c, i ≤ q.1) :
    evictOldest (c ++ [(i, f)]) = c := by
  cases c with
  | nil =>
      show eraseKey [(i, f)] (minKeyEntry (i, f) []).1 = []
      simp [minKeyEntry, eraseKey]
  | cons p rest =>
      show eraseKey (p :: (rest ++ [(i, f)]))
          (minKeyEntry p (rest ++ [(i, f)])).1 = p :: rest
      have hkey : (minKeyEntry p (rest ++ [(i, f)])).1 = i := by
        have hle := (minKeyEntry_le p (rest ++ [(i, f)])).2 (i, f) (by simp)
        have hmem := minKeyEntry_mem p (rest ++ [(i, f)])
        have hge : i ≤ (minKeyEntry p (rest ++ [(i, f)])).1 := by
          rcases List.mem_cons.mp hmem with h1 | h1
          · rw [h1]; exact hmin p (by simp)
          · rcases List.mem_append.mp h1 with h2 | h2
            · exact hmin _ (by simp [h2])
            · simp only [List.mem_singleton] at h2
              rw [h2]
        omega
      rw [hkey]
      rw [show p :: (rest ++ [(i, f)]) = (p :: rest) ++ [(i, f)] from rfl]
      rw [eraseKey_append_of_forall (p :: rest) [(i, f)] i hne]
      simp [eraseKey]

/-- C4 (amended).  When generating the frame for an uncached index fails,
`EventCameraLoader::generateFrameFromTimeRange` catches and logs the
failure and returns the dark-gray error frame; `getFrame` returns that
error frame and inserts it into the cache under the index, subject to
the normal lowest-index eviction.  When the cache was below capacity,
the error frame survives and a later `getFrame` for the same index
returns it from the cache without invoking generation again; when the
cache was already full and the failing index is smaller than every
cached index, the insertion evicts the just-cached error frame
immediately and a later `getFrame` for the same index invokes
generation again. -/
theorem eventLoader_failure_caches_error_frame (gen : Nat → Option Nat)
    (st : LoaderState) (i : Nat)
    (hmiss : lookupCache st.cache i = none)
    (hfail : gen i = none) :
    generateFrameFromTimeRange gen i = (Frame.errorFrame, true)
    ∧ (getFrame gen st i).2 = Frame.errorFrame
    ∧ (getFrame gen st i).1.genCalls = st.genCalls + 1
    ∧ (st.cache.length < MAX_CACHE_SIZE →
        (getFrame gen st i).1.cache = st.cache ++ [(i, Frame.errorFrame)]
        ∧ getFrame gen (getFrame gen st i).1 i
            = ((getFrame gen st i).1, Frame.errorFrame))
    ∧ (MAX_CACHE_SIZE ≤ st.cache.length → (∀ q ∈ st.cache, i ≤ q.1) →
        (getFrame gen st i).1.cache = st.cache
        ∧ (getFrame gen (getFrame gen st i).1 i).1.genCalls
            = st.genCalls + 2) := by
  have hgen : generateFrameFromTimeRange gen i = (Frame.errorFrame, true) := by
    simp [generateFrameFromTimeRange, hfail]
  have h2 : (getFrame gen st i).2 = Frame.errorFrame := by
    rw [getFrame_miss_eq gen st i hmiss]
    simp [hgen]
  have h3 : (getFrame gen st i).1.genCalls = st.genCalls + 1 := by
    rw [getFrame_miss_eq gen st i hmiss]
  refine ⟨hgen, h2, h3, ?_, ?_⟩
  · intro hroom
    have hc1 : (getFrame gen st i).1.cache
        = st.cache ++ [(i, Frame.errorFrame)] := by
      rw [getFrame_miss_eq gen st i hmiss]
      simp only [hgen]
      rw [if_neg (by
        simp only [List.length_append, List.length_cons, List.length_nil]
        omega)]
    have hhit : lookupCache (getFrame gen st i).1.cache i
        = some Frame.errorFrame := by
      rw [hc1, lookupCache_append, hmiss]
      simp [lookupCache]
    exact ⟨hc1, getFrame_hit_eq gen (getFrame gen st i).1 i Frame.errorFrame hhit⟩
  · intro hfull hmin
    have hne := lookupCache_none_forall st.cache i hmiss
    have hevict : evictOldest (st.cache ++ [(i, Frame.errorFrame)]) = st.cache :=
      evictOldest_append_min st.cache i Frame.errorFrame hne hmin
    have hc1 : (getFrame gen st i).1.cache = st.cache := by
      rw [getFrame_miss_eq gen st i hmiss]
      simp only [hgen]
      rw [if_pos (show MAX_CACHE_SIZE <
          (st.cache ++ [(i, Frame.errorFrame)]).length from by
        simp only [List.length_append, List.length_cons, List.length_nil]
        omega)]
      exact hevict
    have hmiss2 : lookupCache (getFrame gen st i).1.cache i = none := by
      rw [hc1]; exact hmiss
    have hg2 : (getFrame gen (getFrame gen st i).1 i).1.genCalls
        = (getFrame gen st i).1.genCalls + 1 := by
      rw [getFrame_miss_eq gen (getFrame gen st i).1 i hmiss2]
    exact ⟨hc1, by rw [hg2, h3]⟩

/-- A full cache holding frames for the indices `1 … 10000`, used to
exercise the full-cache corner of C4 at the new minimal index 0. -/
def fullShiftedCache : Cache := rangeCache 1 MAX_CACHE_SIZE (Frame.image 0)

lemma fullShiftedCache_lookup_miss : lookupCache fullShiftedCache 0 = none := by
  rw [fullShiftedCache, lookupCache_rangeCache, if_neg]
  omega

lemma fullShiftedCache_length : MAX_CACHE_SIZE ≤ fullShiftedCache.length := by
  rw [fullShiftedCache, rangeCache_length]

/-- Witness for C4's amended theorem: a failing generator on a fresh
loader at index 5 (below capacity — the error frame stays cached and the
second call hits without regenerating), and on a loader whose cache is
full with indices `1 … 10000` at index 0 (the error frame is evicted at
once and the second call generates again, reaching two generation
calls). -/
theorem eventLoader_failure_caches_error_frame_witness :
    lookupCache (⟨[], 0, 0⟩ : LoaderState).cache 5 = none
    ∧ (⟨[], 0, 0⟩ : LoaderState).cache.length < MAX_CACHE_SIZE
    ∧ (getFrame (fun _ => none) ⟨[], 0, 0⟩ 5).1.cache
        = (⟨[], 0, 0⟩ : LoaderState).cache ++ [(5, Frame.errorFrame)]
    ∧ getFrame (fun _ => none) (getFrame (fun _ => none) ⟨[], 0, 0⟩ 5).1 5
        = ((getFrame (fun _ => none) ⟨[], 0, 0⟩ 5).1, Frame.errorFrame)
    ∧ lookupCache (⟨fullShiftedCache, 0, 0⟩ : LoaderState).cache 0 = none
    ∧ MAX_CACHE_SIZE ≤ (⟨fullShiftedCache, 0, 0⟩ : LoaderState).cache.length
    ∧ (getFrame (fun _ => none) ⟨fullShiftedCache, 0, 0⟩ 0).1.cache
        = (⟨fullShiftedCache, 0, 0⟩ : LoaderState).cache
    ∧ (getFrame (fun _ => none)
          (getFrame (fun _ => none) ⟨fullShiftedCache, 0, 0⟩ 0).1 0).1.genCalls
        = (⟨fullShiftedCache, 0, 0⟩ : LoaderState).genCalls + 2 := by
  have h1 := eventLoader_failure_caches_error_frame (fun _ => none)
    ⟨[], 0, 0⟩ 5 rfl rfl
  have h2 := eventLoader_failure_caches_error_frame (fun _ => none)
    ⟨fullShiftedCache, 0, 0⟩ 0 fullShiftedCache_lookup_miss rfl
  refine ⟨rfl, by norm_num [MAX_CACHE_SIZE], ?_, ?_,
    fullShiftedCache_lookup_miss, fullShiftedCache_length, ?_, ?_⟩
  · exact (h1.2.2.2.1 (by norm_num [MAX_CACHE_SIZE])).1
  · exact (h1.2.2.2.1 (by norm_num [MAX_CACHE_SIZE])).2
  · exact (h2.2.2.2.2 fullShiftedCache_length (fun q _ => Nat.zero_le _)).1
  · exact (h2.2.2.2.2 fullShiftedCache_length (fun q _ => Nat.zero_le _)).2

end EventLoader

namespace DiskWriter

/-- A queued frame record as seen by the disk writer: device id and
per-device frame index (the image payload does not influence naming). -/
structure FrameRec where
  deviceId : Nat
  frameIndex : Nat
  deriving DecidableEq

/-- The per-camera directory built at the top of
`FrameCameraManager::diskWriterWorker`:
`outputPath / ("frame_cam" + to_string(i))`. -/
def cameraDir (outputPath : String) (deviceId : Nat) : String :=
  outputPath ++ "/frame_cam" ++ toString deviceId

/-- The file name written for one record:
`cameraDirs[deviceId] / ("frame_" + to_string(frameIndex) + ".jpg")`. -/
def framePath (outputPath : String) (r : FrameRec) : String :=
  cameraDir outputPath r.deviceId ++ "/frame_" ++ toString r.frameIndex ++ ".jpg"

/-- `std::filesystem::create_directories`: create-if-absent on the set of
existing directories (no error when the directory already exists). -/
def createDirIfAbsent (dirs : List String) (d : String) : List String :=
  if d ∈ dirs then dirs else dirs ++ [d]

/-- Creating a list of directories in order. -/
def createAll (ds : List String) (dirs : List String) : List String :=
  ds.foldl createDirIfAbsent dirs

/-- The directory-creation loop of `diskWriterWorker` over devices
`0 … numDevices-1`. -/
def createCameraDirs (outputPath : String) (numDevices : Nat)
    (dirs : List String) : List String :=
  createAll ((List.range numDevices).map (cameraDir outputPath)) dirs

/-- The drain loop of `diskWriterWorker`: dequeue records in FIFO order;
for each record attempt the write (`writeOk` models whether
`cv::imwrite` succeeds or throws for that record); a failed write is
logged and skipped, a successful one appends its file name to the
sequence of files written, and in both cases the loop continues with the
rest of the queue.  The loop condition
`while (m_writingToDisk || !m_frameQueue.empty())` makes the writer
process the entire remaining queue even after the stop flag is cleared,
which the total recursion over the queue models. -/
def diskWriterDrain (writeOk : FrameRec → Bool) (outputPath : String) :
    List FrameRec → List String
  | [] => []
  | r :: rs =>
      if writeOk r then
        framePath outputPath r :: diskWriterDrain writeOk outputPath rs
      else diskWriterDrain writeOk outputPath rs

lemma mem_createDirIfAbsent (dirs : List String) (d e : String)
    (h : e ∈ dirs) : e ∈ createDirIfAbsent dirs d := by
  unfold createDirIfAbsent
  by_cases hd : d ∈ dirs
  · simpa [hd]
  · simp [hd, h]

lemma self_mem_createDirIfAbsent (dirs : List String) (d : String) :
    d ∈ createDirIfAbsent dirs d := by
  unfold createDirIfAbsent
  by_cases hd : d ∈ dirs
  · simp [hd]
  · simp [hd]

lemma mem_createAll (ds dirs : List String) (e : String) (h : e ∈ dirs) :
    e ∈ createAll ds dirs := by
  induction ds generalizing dirs with
  | nil => exact h
  | cons d ds ih => exact ih _ (mem_createDirIfAbsent dirs d e h)

lemma all_mem_createAll (ds dirs : List String) :
    ∀ d ∈ ds, d ∈ createAll ds dirs := by
  induction ds generalizing dirs with
  | nil => intro d hd; simp at hd
  | cons c ds ih =>
      intro d hd
      rcases List.mem_cons.mp hd with h1 | h1
      · rw [h1]
        exact mem_createAll ds _ c (self_mem_createDirIfAbsent dirs c)
      · exact ih _ d h1

lemma createAll_of_all_mem (ds dirs : List String)
    (h : ∀ d ∈ ds, d ∈ dirs) : createAll ds dirs = dirs := by
  induction ds with
  | nil => rfl
  | cons c ds ih =>
      have hc : c ∈ dirs := h c (by simp)
      show createAll ds (createDirIfAbsent dirs c) = dirs
      rw [show createDirIfAbsent dirs c = dirs from by simp [createDirIfAbsent, hc]]
      exact ih (fun d hd => h d (by simp [hd]))

lemma diskWriterDrain_eq (writeOk : FrameRec → Bool) (outputPath : String)
    (queue : List FrameRec) :
    diskWriterDrain writeOk outputPath queue
      = (queue.filter writeOk).map (framePath outputPath) := by
  induction queue with
  | nil => rfl
  | cons r rs ih =>
      by_cases h : writeOk r
      · simp [diskWriterDrain, h, List.filter_cons, ih]
      · simp [diskWriterDrain, h, List.filter_cons, ih]

/-- C6.  `FrameCameraManager::diskWriterWorker`: the writer drains the
whole queue (also after the stop signal), attempts the records strictly
in arrival order, writes the record of device `N` with frame index `i`
to `<outputPath>/frame_camN/frame_<i>.jpg`, skips a failed write and
continues with the rest of the queue (the files written are exactly the
successful records, in arrival order, a sublist of the attempted
sequence), and the per-camera directory creation is idempotent. -/
theorem diskWriter_graceful_drain_spec (writeOk : FrameRec → Bool)
    (outputPath : String) (queue : List FrameRec) :
    diskWriterDrain writeOk outputPath queue
      = (queue.filter writeOk).map (framePath outputPath)
    ∧ List.Sublist (diskWriterDrain writeOk outputPath queue)
        (queue.map (framePath outputPath))
    ∧ (∀ r : FrameRec, framePath outputPath r
        = outputPath ++ "/frame_cam" ++ toString r.deviceId
            ++ "/frame_" ++ toString r.frameIndex ++ ".jpg")
    ∧ (∀ (r : FrameRec) (rs : List FrameRec),
        diskWriterDrain writeOk outputPath (r :: rs)
          = (if writeOk r then [framePath outputPath r] else [])
              ++ diskWriterDrain writeOk outputPath rs)
    ∧ (∀ (numDevices : Nat) (dirs : List String),
        createCameraDirs outputPath numDevices
            (createCameraDirs outputPath numDevices dirs)
          = createCameraDirs outputPath numDevices dirs) := by
  refine ⟨diskWriterDrain_eq writeOk outputPath queue, ?_, ?_, ?_, ?_⟩
  · rw [diskWriterDrain_eq]
    exact (List.filter_sublist queue).map (framePath outputPath)
  · intro r
    simp [framePath, cameraDir, String.append_assoc]
  · intro r rs
    by_cases h : writeOk r
    · simp [diskWriterDrain, h]
    · simp [diskWriterDrain, h]
  · intro numDevices dirs
    exact createAll_of_all_mem _ _
      (fun d hd => all_mem_createAll _ dirs d hd)

end DiskWriter

namespace EventAccum

/-- `MAX_EVENT_BUFFER_SIZE` from event_camera_manager.h. -/
def MAX_EVENT_BUFFER_SIZE : Nat := 100

/-- An `EventFrameData` record as produced by
`EventCameraManager::eventStreamingWorker`: the rasterized frame is an
opaque payload (the 640×480 accumulation image), plus camera id, frame
index, timestamp and validity flag.  The source sets
`isValid = !frame.empty()`, and `generateEventFrame` always returns a
640×480 matrix, so the flag is `true` for every emitted frame. -/
structure EventFrameData where
  frame : Nat
  cameraId : Nat
  frameIndex : Nat
  timestamp : Nat
  isValid : Bool
  deriving DecidableEq

/-- The per-camera worker state: the ring buffer
`m_liveEventBuffers[cameraId]` (head = oldest), the counter
`m_eventFrameCounters[cameraId]`, and the accumulated `eventBuffer`
(events as opaque payloads). -/
structure AccumState where
  ring : List EventFrameData
  counter : Nat
  buffer : List Nat
  deriving DecidableEq

/-- The ring-bounding loop in `eventStreamingWorker`:
`while (m_liveEventBuffers[cameraId].size() > MAX_EVENT_BUFFER_SIZE) pop()`. -/
def trimRing (r : List EventFrameData) : List EventFrameData :=
  if MAX_EVENT_BUFFER_SIZE < r.length then trimRing (r.drop 1) else r
termination_by r.length
decreasing_by simp only [List.length_drop]; omega

/-- The `EventFrameData` built on a tick of `eventStreamingWorker`: the
rasterized frame (`raster` models `generateEventFrame` on the
accumulated events), the camera id, the current per-camera counter as
frame index (post-incremented by the tick), the tick timestamp, and the
validity flag. -/
def mkFrame (raster : List Nat → Nat) (cameraId ts : Nat)
    (st : AccumState) : EventFrameData :=
  { frame := raster st.buffer
    cameraId := cameraId
    frameIndex := st.counter
    timestamp := ts
    isValid := true }

/-- One accumulation tick of `eventStreamingWorker` on which the elapsed
time has reached the frame interval
(`currentTime - lastFrameTime >= frameInterval`): an empty accumulation
buffer emits nothing; otherwise the buffered events are rasterized,
stamped and pushed into the ring, the ring is trimmed to
`MAX_EVENT_BUFFER_SIZE`, the counter advances and the event buffer is
cleared. -/
def eventTick (raster : List Nat → Nat) (cameraId ts : Nat)
    (st : AccumState) : AccumState :=
  if st.buffer.isEmpty then st
  else
    { ring := trimRing (st.ring ++ [mkFrame raster cameraId ts st])
      counter := st.counter + 1
      buffer := [] }

lemma trimRing_eq_drop (r : List EventFrameData) :
    trimRing r = r.drop (r.length - MAX_EVENT_BUFFER_SIZE) := by
  have H : ∀ (n : Nat) (r : List EventFrameData), r.length = n →
      trimRing r = r.drop (r.length - MAX_EVENT_BUFFER_SIZE) := by
    intro n
    induction n using Nat.strong_induction_on with
    | _ n ih =>
        intro r hr
        rw [trimRing]
        by_cases h : MAX_EVENT_BUFFER_SIZE < r.length
        · rw [if_pos h]
          rw [ih (r.drop 1).length (by simp only [List.length_drop]; omega)
            (r.drop 1) rfl]
          rw [List.drop_drop]
          congr 1
          simp only [List.length_drop]
          omega
        · rw [if_neg h, Nat.sub_eq_zero_of_le (not_lt.mp h), List.drop_zero]
  exact H r.length r rfl

/-- C7.  `EventCameraManager::eventStreamingWorker` with
`MAX_EVENT_BUFFER_SIZE = 100`: on a due accumulation tick, an empty
event buffer emits no frame and leaves the state (in particular the
per-camera counter) unchanged; a non-empty buffer emits exactly one
rasterized frame carrying the current counter value as its index, the
counter advances by one, the event buffer is cleared, the new frame
becomes the newest ring entry with the oldest entries dropped on
overflow, and a ring that held at most 100 frames still holds at most
100 after the push. -/
theorem eventAccum_tick_spec (raster : List Nat → Nat) (cameraId ts : Nat)
    (st : AccumState) :
    (st.buffer = [] → eventTick raster cameraId ts st = st)
    ∧ (st.buffer ≠ [] →
        eventTick raster cameraId ts st
          = { ring := st.ring.drop (st.ring.length + 1 - MAX_EVENT_BUFFER_SIZE)
                ++ [mkFrame raster cameraId ts st]
              counter := st.counter + 1
              buffer := [] })
    ∧ (mkFrame raster cameraId ts st).frameIndex = st.counter
    ∧ (st.buffer ≠ [] → st.ring.length ≤ MAX_EVENT_BUFFER_SIZE →
        (eventTick raster cameraId ts st).ring.length ≤ MAX_EVENT_BUFFER_SIZE) := by
  have hMAX : 1 ≤ MAX_EVENT_BUFFER_SIZE := by norm_num [MAX_EVENT_BUFFER_SIZE]
  have hmain : st.buffer ≠ [] →
      eventTick raster cameraId ts st
        = { ring := st.ring.drop (st.ring.length + 1 - MAX_EVENT_BUFFER_SIZE)
              ++ [mkFrame raster cameraId ts st]
            counter := st.counter + 1
            buffer := [] } := by
    intro hne
    rw [eventTick, if_neg (by simpa [List.isEmpty_iff] using hne)]
    have htrim := trimRing_eq_drop (st.ring ++ [mkFrame raster cameraId ts st])
    simp only [List.length_append, List.length_cons, List.length_nil] at htrim
    rw [htrim, List.drop_append_of_le_length (by omega)]
  refine ⟨?_, hmain, rfl, ?_⟩
  · intro he
    rw [eventTick, if_pos (by simp [he])]
  · intro hne hlen
    rw [hmain hne]
    simp only [List.length_append, List.length_cons, List.length_nil,
      List.length_drop]
    omega

/-- A concrete worker state with a full ring of 100 frames and a
non-empty accumulation buffer. -/
def fullState : AccumState :=
  { ring := (List.range 100).map (fun j => ⟨j, 1, j, 0, true⟩)
    counter := 100
    buffer := [7] }

/-- Witness for C7 at the full ring of 100 frames with a non-empty event
buffer, together with the empty-buffer case at a fresh state. -/
theorem eventAccum_tick_spec_witness :
    ((⟨[], 0, []⟩ : AccumState).buffer = []
      ∧ eventTick (fun l => l.length) 0 0 ⟨[], 0, []⟩ = ⟨[], 0, []⟩)
    ∧ (fullState.buffer ≠ []
      ∧ fullState.ring.length ≤ MAX_EVENT_BUFFER_SIZE
      ∧ eventTick (fun l => l.length) 1 7 fullState
          = { ring := fullState.ring.drop
                  (fullState.ring.length + 1 - MAX_EVENT_BUFFER_SIZE)
                ++ [mkFrame (fun l => l.length) 1 7 fullState]
              counter := fullState.counter + 1
              buffer := [] }
      ∧ (eventTick (fun l => l.length) 1 7 fullState).ring.length
          ≤ MAX_EVENT_BUFFER_SIZE) := by
  have hne : fullState.buffer ≠ [] := by
    simp [fullState]
  have hlen : fullState.ring.length ≤ MAX_EVENT_BUFFER_SIZE := by
    simp [fullState, MAX_EVENT_BUFFER_SIZE]
  exact ⟨⟨rfl, (eventAccum_tick_spec (fun l => l.length) 0 0 ⟨[], 0, []⟩).1 rfl⟩,
    hne, hlen,
    (eventAccum_tick_spec (fun l => l.length) 1 7 fullState).2.1 hne,
    (eventAccum_tick_spec (fun l => l.length) 1 7 fullState).2.2.2 hne hlen⟩

end EventAccum

namespace RecManager

/-- `RecordingManager::RecordingConfig` (recording_manager.h): the
event-camera serial list, the per-bias-name value lists, and the event
file format (the remaining fields do not affect these claims). -/
structure RecordingConfig where
  eventCameraSerials : List String
  biases : List (String × List Int)
  eventFileFormat : String
  deriving DecidableEq

/-- `RecordingManager::DEFAULT_BIASES`. -/
def DEFAULT_BIASES : List (String × Int) :=
  [("bias_diff_on", 0), ("bias_diff_off", 0), ("bias_fo", 0),
   ("bias_hpf", 0), ("bias_refr", 0)]

/-- `EventCameraManager::CameraConfig`. -/
structure CameraConfig where
  serial : String
  biases : List (String × Int)
  deriving DecidableEq

/-- `config.biases.count(key)` / `config.biases.at(key)`. -/
def biasLookup (bs : List (String × List Int)) (k : String) : Option (List Int) :=
  match bs with
  | [] => none
  | (k2, v) :: rest => if k2 = k then some v else biasLookup rest k

/-- The per-camera bias map built by
`RecordingManager::createEventCameraConfigs` for camera `i`: for each
default bias name, use the i-th provided value when the name is present
and `i` is within its list, else the default. -/
def cameraBiasesFor (biases : List (String × List Int)) (i : Nat) :
    List (String × Int) :=
  DEFAULT_BIASES.map (fun p =>
    match biasLookup biases p.1 with
    | some vs => (p.1, vs.getD i p.2)
    | none => (p.1, p.2))

/-- The validation loop of `createEventCameraConfigs`: some provided bias
list is non-empty and its length differs from the serial count. -/
def biasMismatch (cfg : RecordingConfig) : Bool :=
  cfg.biases.any (fun p =>
    !p.2.isEmpty && decide (p.2.length ≠ cfg.eventCameraSerials.length))

/-- `RecordingManager::createEventCameraConfigs`: with no serials given,
auto-discovery is used and the function returns immediately *before* the
bias-count validation loop; otherwise a non-empty bias list whose length
differs from the serial count throws, and only then are the per-camera
configurations built. -/
def createEventCameraConfigs (cfg : RecordingConfig) :
    Except String (List CameraConfig) :=
  if cfg.eventCameraSerials.isEmpty then Except.ok []
  else if biasMismatch cfg then
    Except.error "Number of bias values must match number of serials."
  else Except.ok ((List.range cfg.eventCameraSerials.length).map (fun i =>
    { serial := cfg.eventCameraSerials.getD i ""
      biases := cameraBiasesFor cfg.biases i }))

/-- `RecordingManager::validateConfig`: the event file format must be
"raw" or "hdf5". -/
def validateConfig (cfg : RecordingConfig) : Except String Unit :=
  if cfg.eventFileFormat ≠ "raw" ∧ cfg.eventFileFormat ≠ "hdf5" then
    Except.error "Invalid event file format"
  else Except.ok ()

/-- The recording-state flags of `RecordingManager`: `m_configured` and
`m_recording`. -/
structure ManagerState where
  configured : Bool
  recording : Bool
  deriving DecidableEq

/-- `RecordingManager::configure`: refuse while recording; then run the
try block — validate the format, open the frame-camera devices
(`frameDevicesOk` models whether the hardware setup throws), build the
event-camera configurations, open the event-camera devices
(`eventDevicesOk`).  Any failure is caught, leaves `m_configured`
false and returns false; success sets `m_configured` and returns
true. -/
def configure (frameDevicesOk eventDevicesOk : Bool) (st : ManagerState)
    (cfg : RecordingConfig) : ManagerState × Bool :=
  if st.recording then (st, false)
  else
    match validateConfig cfg with
    | Except.error _ => ({ st with configured := false }, false)
    | Except.ok _ =>
        if !frameDevicesOk then ({ st with configured := false }, false)
        else
          match createEventCameraConfigs cfg with
          | Except.error _ => ({ st with configured := false }, false)
          | Except.ok _ =>
              if !eventDevicesOk then ({ st with configured := false }, false)
              else ({ st with configured := true }, true)

/-- `RecordingManager::startRecording(outputDirectory)`: refuse while
recording; refuse when not configured; otherwise start both managers
(`startDevicesOk` models whether the hardware start throws) and set
`m_recording` on success. -/
def startRecording (startDevicesOk : Bool) (st : ManagerState) :
    ManagerState × Bool :=
  if st.recording then (st, false)
  else if !st.configured then (st, false)
  else if startDevicesOk then ({ st with recording := true }, true)
  else (st, false)

/-- The configuration exhibiting the gap in C8: no serials (so
auto-discovery) together with a non-empty bias list of mismatched
length. -/
def emptySerialsConfig : RecordingConfig :=
  { eventCameraSerials := []
    biases := [("bias_fo", [1])]
    eventFileFormat := "raw" }

/-- Counterexample to C8 as stated: `emptySerialsConfig` has a bias name
mapped to a non-empty list whose length (1) differs from the number of
serials (0), yet `createEventCameraConfigs` returns before the bias
check because the serial list is empty — `configure` succeeds,
`isConfigured()` becomes true, and `startRecording` starts recording. -/
theorem recManager_bias_mismatch_counterexample :
    biasMismatch emptySerialsConfig = true
    ∧ createEventCameraConfigs emptySerialsConfig = Except.ok []
    ∧ configure true true ⟨false, false⟩ emptySerialsConfig
        = (⟨true, false⟩, true)
    ∧ (startRecording true
        (configure true true ⟨false, false⟩ emptySerialsConfig).1).2 = true
    ∧ (startRecording true
        (configure true true ⟨false, false⟩ emptySerialsConfig).1).1.recording
        = true := by
  refine ⟨by decide, rfl, by decide, by decide, by decide⟩

/-- C8 (amended).  For every `RecordingConfig` with a *non-empty*
event-camera serial list in which some bias name maps to a non-empty
value list whose length differs from the number of serials, and every
outcome of the hardware setup, `configure` reports failure and leaves
`isConfigured()` false, and a subsequent `startRecording` returns false
with `isRecording()` still false.  (With an empty serial list,
auto-discovery is used and the bias lists are ignored without error.) -/
theorem recManager_config_error_blocks_recording (cfg : RecordingConfig)
    (st : ManagerState)
    (hrec : st.recording = false)
    (hserials : cfg.eventCameraSerials ≠ [])
    (hmismatch : biasMismatch cfg = true) :
    ∀ frameDevicesOk eventDevicesOk startDevicesOk : Bool,
      (configure frameDevicesOk eventDevicesOk st cfg).2 = false
      ∧ (configure frameDevicesOk eventDevicesOk st cfg).1.configured = false
      ∧ (startRecording startDevicesOk
          (configure frameDevicesOk eventDevicesOk st cfg).1).2 = false
      ∧ (startRecording startDevicesOk
          (configure frameDevicesOk eventDevicesOk st cfg).1).1.recording
          = false := by
  intro fOk eOk sOk
  have hcc : createEventCameraConfigs cfg
      = Except.error "Number of bias values must match number of serials." := by
    unfold createEventCameraConfigs
    rw [if_neg (by simpa [List.isEmpty_iff] using hserials), if_pos hmismatch]
  have hconf : configure fOk eOk st cfg = ({ st with configured := false }, false) := by
    cases hv : validateConfig cfg with
    | error e => simp [configure, hrec, hv]
    | ok u =>
        cases fOk with
        | false => simp [configure, hrec, hv]
        | true => simp [configure, hrec, hv, hcc]
  rw [hconf]
  refine ⟨rfl, rfl, ?_, ?_⟩ <;> simp [startRecording, hrec]

/-- Witness for C8's amended theorem at a concrete mismatched
configuration: one serial but two `bias_fo` values. -/
theorem recManager_config_error_blocks_recording_witness :
    ((⟨false, false⟩ : ManagerState).recording = false
      ∧ (RecordingConfig.mk ["serialA"] [("bias_fo", [1, 2])] "raw").eventCameraSerials ≠ []
      ∧ biasMismatch (RecordingConfig.mk ["serialA"] [("bias_fo", [1, 2])] "raw") = true)
    ∧ ((configure true true ⟨false, false⟩
          (RecordingConfig.mk ["serialA"] [("bias_fo", [1, 2])] "raw")).2 = false
      ∧ (configure true true ⟨false, false⟩
          (RecordingConfig.mk ["serialA"] [("bias_fo", [1, 2])] "raw")).1.configured = false
      ∧ (startRecording true (configure true true ⟨false, false⟩
          (RecordingConfig.mk ["serialA"] [("bias_fo", [1, 2])] "raw")).1).2 = false
      ∧ (startRecording true (configure true true ⟨false, false⟩
          (RecordingConfig.mk ["serialA"] [("bias_fo", [1, 2])] "raw")).1).1.recording
          = false) := by
  exact ⟨⟨rfl, by decide, by decide⟩,
    recManager_config_error_blocks_recording
      (RecordingConfig.mk ["serialA"] [("bias_fo", [1, 2])] "raw")
      ⟨false, false⟩ rfl (by decide) (by decide) true true true⟩

end RecManager

namespace RecBuffer

/-- `RecordingBuffer::Mode` (player_window.h / recording_buffer.h). -/
inductive Mode where
  | playback
  | live
  deriving DecidableEq

/-- The state of `RecordingBuffer` relevant to the mode-machine claims:
current mode, `m_active`, the two live buffers, the `m_frameCache` map,
`m_currentFrameIndex` and `m_currentFPS` (payloads opaque). -/
structure BufState where
  mode : Mode
  active : Bool
  liveFrameBuffer : List Nat
  liveEventBuffer : List Nat
  frameCache : List (Nat × Nat)
  currentFrameIndex : Nat
  currentFPS : ℚ
  deriving DecidableEq

/-- A freshly constructed `RecordingBuffer`: inactive, mode `Playback`
(the default member initializer `m_currentMode{Mode::Playback}`). -/
def initBufState : BufState :=
  { mode := Mode.playback
    active := false
    liveFrameBuffer := []
    liveEventBuffer := []
    frameCache := []
    currentFrameIndex := 0
    currentFPS := 0 }

/-- `RecordingBuffer::stop` (recording_buffer.cpp): return immediately
when inactive; otherwise clear `m_active`, join the live worker (no state
field), clear the frame cache, empty both live buffers, and reset the
frame index and FPS to zero.  The mode field is left unchanged. -/
def stop (st : BufState) : BufState :=
  if !st.active then st
  else
    { st with
      active := false
      frameCache := []
      liveFrameBuffer := []
      liveEventBuffer := []
      currentFrameIndex := 0
      currentFPS := 0 }

/-- The tail of `RecordingBuffer::setPlaybackMode`, after the conditional
teardown: install the loader, switch the mode, and activate when a
loader is present. -/
def setPlaybackCore (st : BufState) (loaderPresent : Bool) : BufState :=
  if loaderPresent then { st with mode := Mode.playback, active := true }
  else { st with mode := Mode.playback }

/-- `RecordingBuffer::setPlaybackMode`: `if (m_active) stop();` followed
by the mode installation. -/
def setPlaybackMode (st : BufState) (loaderPresent : Bool) : BufState :=
  setPlaybackCore (if st.active then stop st else st) loaderPresent

/-- The tail of `RecordingBuffer::setLiveMode` after the conditional
teardown: install the manager, switch the mode, and activate when the
manager is recording. -/
def setLiveCore (st : BufState) (managerRecording : Bool) : BufState :=
  if managerRecording then { st with mode := Mode.live, active := true }
  else { st with mode := Mode.live }

/-- `RecordingBuffer::setLiveMode`: `if (m_active) stop();` followed by
the mode installation. -/
def setLiveMode (st : BufState) (managerRecording : Bool) : BufState :=
  setLiveCore (if st.active then stop st else st) managerRecording

/-- `RecordingBuffer::setCurrentFrameIndex`: a no-op outside Playback
mode; otherwise store the externally driven index.  Note the source does
not check `m_active` here. -/
def setCurrentFrameIndex (st : BufState) (i : Nat) : BufState :=
  if st.mode ≠ Mode.playback then st
  else { st with currentFrameIndex := i }

/-- `RecordingBuffer::getBufferSize`: in Live mode the larger of the two
live buffer sizes, otherwise 0. -/
def getBufferSize (st : BufState) : Nat :=
  if st.mode = Mode.live then
    max st.liveFrameBuffer.length st.liveEventBuffer.length
  else 0

/-- Counterexample to C9 as stated: on a fresh (inactive, Playback-mode)
buffer, `setCurrentFrameIndex 5` stores index 5 — the source checks only
the mode, not `m_active` — and the following `stop()` returns through
the `if (!m_active) return;` early exit without resetting anything, so
after this `stop()` the current frame index is 5, not 0. -/
theorem recBuffer_stop_counterexample :
    (setCurrentFrameIndex initBufState 5).active = false
    ∧ stop (setCurrentFrameIndex initBufState 5) = setCurrentFrameIndex initBufState 5
    ∧ (stop (setCurrentFrameIndex initBufState 5)).currentFrameIndex = 5
    ∧ (5 : Nat) ≠ 0 := by
  refine ⟨?_, ?_, ?_, ?_⟩ <;> decide

/-- C9 (amended).  `RecordingBuffer` never transitions directly between
Live and Playback: `setPlaybackMode` and `setLiveMode` on an active
buffer run the full `stop()` teardown before installing the new mode.
Every `stop()` of an *active* buffer cleanly resets the state —
`isActive()` becomes false, both live buffers and the frame cache are
emptied so `getBufferSize() = 0`, the current frame index becomes 0 and
the reported FPS becomes 0; a `stop()` of an inactive buffer returns
immediately without modifying state. -/
theorem recBuffer_stop_resets_state (st : BufState) (h : st.active = true) :
    (∀ p : Bool, setPlaybackMode st p = setPlaybackCore (stop st) p)
    ∧ (∀ m : Bool, setLiveMode st m = setLiveCore (stop st) m)
    ∧ (stop st).active = false
    ∧ (stop st).liveFrameBuffer = []
    ∧ (stop st).liveEventBuffer = []
    ∧ (stop st).frameCache = []
    ∧ getBufferSize (stop st) = 0
    ∧ (stop st).currentFrameIndex = 0
    ∧ (stop st).currentFPS = 0
    ∧ (∀ st2 : BufState, st2.active = false → stop st2 = st2) := by
  have hstop : stop st
      = { st with
          active := false
          frameCache := []
          liveFrameBuffer := []
          liveEventBuffer := []
          currentFrameIndex := 0
          currentFPS := 0 } := by
    rw [stop, if_neg (by simp [h])]
  refine ⟨?_, ?_, ?_, ?_, ?_, ?_, ?_, ?_, ?_, ?_⟩
  · intro p; rw [setPlaybackMode, if_pos h]
  · intro m; rw [setLiveMode, if_pos h]
  · rw [hstop]
  · rw [hstop]
  · rw [hstop]
  · rw [hstop]
  · rw [hstop]
    unfold getBufferSize
    by_cases hm : st.mode = Mode.live <;> simp [hm]
  · rw [hstop]
  · rw [hstop]
  · intro st2 h2
    rw [stop, if_pos (by simp [h2])]

/-- Witness for C9's amended theorem at a concrete active Live-mode
state with non-empty buffers and non-zero index and FPS. -/
theorem recBuffer_stop_resets_state_witness :
    (BufState.mk Mode.live true [1, 2] [3] [(0, 0)] 4 30).active = true
    ∧ ((∀ p : Bool,
        setPlaybackMode (BufState.mk Mode.live true [1, 2] [3] [(0, 0)] 4 30) p
          = setPlaybackCore (stop (BufState.mk Mode.live true [1, 2] [3] [(0, 0)] 4 30)) p)
      ∧ (∀ m : Bool,
        setLiveMode (BufState.mk Mode.live true [1, 2] [3] [(0, 0)] 4 30) m
          = setLiveCore (stop (BufState.mk Mode.live true [1, 2] [3] [(0, 0)] 4 30)) m)
      ∧ (stop (BufState.mk Mode.live true [1, 2] [3] [(0, 0)] 4 30)).active = false
      ∧ (stop (BufState.mk Mode.live true [1, 2] [3] [(0, 0)] 4 30)).liveFrameBuffer = []
      ∧ (stop (BufState.mk Mode.live true [1, 2] [3] [(0, 0)] 4 30)).liveEventBuffer = []
      ∧ (stop (BufState.mk Mode.live true [1, 2] [3] [(0, 0)] 4 30)).frameCache = []
      ∧ getBufferSize (stop (BufState.mk Mode.live true [1, 2] [3] [(0, 0)] 4 30)) = 0
      ∧ (stop (BufState.mk Mode.live true [1, 2] [3] [(0, 0)] 4 30)).currentFrameIndex = 0
      ∧ (stop (BufState.mk Mode.live true [1, 2] [3] [(0, 0)] 4 30)).currentFPS = 0
      ∧ (∀ st2 : BufState, st2.active = false → stop st2 = st2)) := by
  exact ⟨rfl,
    recBuffer_stop_resets_state (BufState.mk Mode.live true [1, 2] [3] [(0, 0)] 4 30) rfl⟩

end RecBuffer

namespace FrameSort

/-- `std::isdigit` on an unsigned char in the default locale: the ASCII
decimal digits. -/
def isDigitChar (c : Char) : Bool :=
  48 ≤ c.toNat && c.toNat ≤ 57

/-- The `find_last_of("/\\")` + `substr(filenamePos+1)` step of
`extract_frame_index` (extract_frame_index.cpp): keep the part of the
path after the last path separator (the whole string when none). -/
def afterLastSep (cs : List Char) : List Char :=
  (cs.reverse.takeWhile (fun c => !(c = '/' || c = '\\'))).reverse

/-- The `find_last_of('.')` + `substr(0, dotPos)` step: strip the last
dot and everything after it when a dot is present. -/
def stripLastDot (cs : List Char) : List Char :=
  if '.' ∈ cs then ((cs.reverse.dropWhile (fun c => !(c = '.'))).drop 1).reverse
  else cs

/-- The base name examined by `extract_frame_index`: directory part and
final extension removed. -/
def baseName (cs : List Char) : List Char :=
  stripLastDot (afterLastSep cs)

/-- `LLONG_MAX`, the overflow point of `std::stoll`. -/
def LLONG_MAX : Nat := 9223372036854775807

def digitVal (c : Char) : Nat := c.toNat - 48

/-- The numeric value of a digit string. -/
def parseNat (ds : List Char) : Nat :=
  ds.foldl (fun a c => a * 10 + digitVal c) 0

/-- `std::stoll` on the extracted (non-empty, all-digit) run: the value,
unless it exceeds `LLONG_MAX`, in which case the thrown `out_of_range`
is caught by `extract_frame_index` and `-1` is returned. -/
def parseFrameNumber (ds : List Char) : Int :=
  if parseNat ds ≤ LLONG_MAX then (parseNat ds : Int) else -1

/-- The first scanning `while` loop of `extract_frame_index` over the
reversed base name: skip the trailing non-digit characters. -/
def trailingSkipped (cs : List Char) : List Char :=
  (baseName cs).reverse.dropWhile (fun c => !isDigitChar c)

/-- `extract_frame_index` (extract_frame_index.cpp): scan the base name
from the end past the trailing non-digits; return `-1` when no digit
exists (`i < 0`), otherwise collect the last contiguous digit run (the
second `while` loop, the `takeWhile` below) and parse it with
`std::stoll`, returning `-1` when the parse throws. -/
def extract_frame_index (cs : List Char) : Int :=
  if (trailingSkipped cs).isEmpty then -1
  else parseFrameNumber ((trailingSkipped cs).takeWhile isDigitChar).reverse

/-- `std::string::operator<`: byte-wise lexicographic comparison. -/
def strLt : List Char → List Char → Bool
  | [], [] => false
  | [], _ :: _ => true
  | _ :: _, [] => false
  | c :: cs, d :: ds =>
      if c.toNat < d.toNat then true
      else if d.toNat < c.toNat then false
      else strLt cs ds

/-- The sort comparator of `RecordingDataLoader::loadFrameCameraData`:
fall back to plain string comparison when either index is `-1`, order by
index when they differ, and tie-break by string comparison. -/
def frameFileLess (a b : List Char) : Bool :=
  if extract_frame_index a = -1 || extract_frame_index b = -1 then strLt a b
  else if extract_frame_index a ≠ extract_frame_index b then
    decide (extract_frame_index a < extract_frame_index b)
  else strLt a b

lemma dropWhile_append_of_all (p : Char → Bool) (xs ys : List Char)
    (h : ∀ c ∈ xs, p c = true) :
    (xs ++ ys).dropWhile p = ys.dropWhile p := by
  induction xs with
  | nil => rfl
  | cons c cs ih =>
      have hc : p c = true := h c (by simp)
      simp only [List.cons_append, List.dropWhile_cons, hc, if_pos]
      exact ih (fun d hd => h d (by simp [hd]))

lemma dropWhile_eq_nil_of_all (p : Char → Bool) (xs : List Char)
    (h : ∀ c ∈ xs, p c = true) : xs.dropWhile p = [] := by
  have := dropWhile_append_of_all p xs [] h
  simpa using this

lemma takeWhile_append_of_all (p : Char → Bool) (xs ys : List Char)
    (h : ∀ c ∈ xs, p c = true) :
    (xs ++ ys).takeWhile p = xs ++ ys.takeWhile p := by
  induction xs with
  | nil => rfl
  | cons c cs ih =>
      have hc : p c = true := h c (by simp)
      simp only [List.cons_append, List.takeWhile_cons, hc, if_pos]
      rw [ih (fun d hd => h d (by simp [hd]))]

lemma takeWhile_eq_nil_of_head (p : Char → Bool) (xs : List Char)
    (h : ∀ c, xs.head? = some c → p c = false) : xs.takeWhile p = [] := by
  cases xs with
  | nil => rfl
  | cons c cs =>
      have hc : p c = false := h c rfl
      simp [List.takeWhile_cons, hc]

/-- When the base name decomposes as `pre ++ run ++ post` with `run` a
non-empty digit run, no digit in `post` and `pre` not ending in a digit,
the trailing-skip scan stops exactly at the end of `run`. -/
lemma trailingSkipped_of_split (cs pre run post : List Char)
    (hsplit : baseName cs = pre ++ run ++ post)
    (hrun : run ≠ [])
    (hdig : ∀ c ∈ run, isDigitChar c = true)
    (hpost : ∀ c ∈ post, isDigitChar c = false) :
    trailingSkipped cs = run.reverse ++ pre.reverse := by
  unfold trailingSkipped
  rw [hsplit]
  rw [show (pre ++ run ++ post).reverse
      = post.reverse ++ (run.reverse ++ pre.reverse) from by
    simp [List.reverse_append, List.append_assoc]]
  rw [dropWhile_append_of_all _ post.reverse _
    (fun c hc => by simp [hpost c (List.mem_reverse.mp hc)])]
  obtain ⟨d, ds, hds⟩ : ∃ d ds, run.reverse = d :: ds := by
    cases hrr : run.reverse with
    | nil => exact absurd (by simpa using congrArg List.reverse hrr) hrun
    | cons d ds => exact ⟨d, ds, rfl⟩
  have hdd : isDigitChar d = true := by
    have : d ∈ run.reverse := by rw [hds]; simp
    exact hdig d (List.mem_reverse.mp this)
  rw [hds, List.cons_append, List.dropWhile_cons, if_neg (by simp [hdd])]

/-- Core characterization of `extract_frame_index` on a name whose last
maximal digit run is `run`. -/
lemma extract_eq_of_split (cs pre run post : List Char)
    (hsplit : baseName cs = pre ++ run ++ post)
    (hrun : run ≠ [])
    (hdig : ∀ c ∈ run, isDigitChar c = true)
    (hpost : ∀ c ∈ post, isDigitChar c = false)
    (hpre : (pre.getLast?.elim true (fun c => !isDigitChar c)) = true) :
    extract_frame_index cs = parseFrameNumber run := by
  have hts := trailingSkipped_of_split cs pre run post hsplit hrun hdig hpost
  unfold extract_frame_index
  rw [hts]
  rw [if_neg (by
    simp [List.isEmpty_iff, List.append_eq_nil, List.reverse_eq_nil_iff, hrun])]
  rw [takeWhile_append_of_all _ run.reverse _
    (fun c hc => hdig c (List.mem_reverse.mp hc))]
  rw [takeWhile_eq_nil_of_head _ pre.reverse
    (fun c hc => by
      rw [List.head?_reverse] at hc
      rw [hc] at hpre
      simpa using hpre)]
  simp

/-- C10.  `extract_frame_index` (extract_frame_index.cpp) returns the
parsed value of the last maximal run of decimal digits in the file's
base name (directory prefix and final extension removed) — the value
itself when it fits in a `long long` and `-1` on parse overflow — and
returns `-1` when the base name contains no digit; the comparator of
`RecordingDataLoader::loadFrameCameraData` orders two paths with
distinct valid keys by key, falls back to plain string comparison on
equal keys, and to plain string comparison when either key is `-1`. -/
theorem frameSort_extract_frame_index_spec (cs pre run post : List Char)
    (hsplit : baseName cs = pre ++ run ++ post)
    (hrun : run ≠ [])
    (hdig : ∀ c ∈ run, isDigitChar c = true)
    (hpost : ∀ c ∈ post, isDigitChar c = false)
    (hpre : (pre.getLast?.elim true (fun c => !isDigitChar c)) = true) :
    extract_frame_index cs = parseFrameNumber run
    ∧ (parseNat run ≤ LLONG_MAX → extract_frame_index cs = (parseNat run : Int))
    ∧ (LLONG_MAX < parseNat run → extract_frame_index cs = -1)
    ∧ (∀ ds : List Char, (∀ c ∈ baseName ds, isDigitChar c = false) →
        extract_frame_index ds = -1)
    ∧ (∀ a b : List Char,
        extract_frame_index a ≠ -1 → extract_frame_index b ≠ -1 →
        extract_frame_index a < extract_frame_index b →
        frameFileLess a b = true ∧ frameFileLess b a = false)
    ∧ (∀ a b : List Char, extract_frame_index a = extract_frame_index b →
        frameFileLess a b = strLt a b) := by
  have hmain := extract_eq_of_split cs pre run post hsplit hrun hdig hpost hpre
  refine ⟨hmain, ?_, ?_, ?_, ?_, ?_⟩
  · intro hle
    rw [hmain, parseFrameNumber, if_pos hle]
  · intro hgt
    rw [hmain, parseFrameNumber, if_neg (by omega)]
  · intro ds hnd
    unfold extract_frame_index trailingSkipped
    rw [dropWhile_eq_nil_of_all _ _
      (fun c hc => by simp [hnd c (List.mem_reverse.mp hc)])]
    rfl
  · intro a b ha hb hab
    constructor
    · unfold frameFileLess
      rw [if_neg (by simp [ha, hb]), if_pos (by simp; omega)]
      simpa using hab
    · unfold frameFileLess
      rw [if_neg (by simp [ha, hb]), if_pos (by simp; omega)]
      simp
      omega
  · intro a b hab
    unfold frameFileLess
    by_cases h1 : extract_frame_index a = -1 ∨ extract_frame_index b = -1
    · rw [if_pos (by rcases h1 with h | h <;> simp [h])]
    · push_neg at h1
      rw [if_neg (by simp [h1.1, h1.2])]
      rw [if_neg (by simp [hab])]

/-- Witness for C10 at the concrete path `dir/frame_0123.jpg`: base name
`frame_0123`, digit run `0123`, extracted index 123. -/
theorem frameSort_extract_frame_index_spec_witness :
    baseName "dir/frame_0123.jpg".toList
      = "frame_".toList ++ "0123".toList ++ []
    ∧ "0123".toList ≠ []
    ∧ extract_frame_index "dir/frame_0123.jpg".toList
        = parseFrameNumber "0123".toList
    ∧ extract_frame_index "dir/frame_0123.jpg".toList = 123 := by
  have h := frameSort_extract_frame_index_spec "dir/frame_0123.jpg".toList
    "frame_".toList "0123".toList []
    (by decide) (by decide) (by decide) (by decide) (by decide)
  exact ⟨by decide, by decide, h.1, by rw [h.1]; decide⟩

end FrameSort
